import Mathlib

/-!
# Verification of the `clacos` linked-list heap allocator

Shallow embedding of `src/allocator/linked_list.rs` (the free-list allocator
of the clacos kernel) and proofs of the specification claims about it.

Modelling conventions:
* Addresses and sizes (`usize` on the x86_64 target) are `Nat`; overflow is
  modelled explicitly where the Rust code checks it (`checked_add`), with
  `USIZE_MAX = 2^64 - 1`.
* A `ListNode` is written at the start of the free region it describes, so a
  node is modelled by the pair of its own address (`self as *const Self as
  usize`) and its `size` field.  The `next` chain hanging off the sentinel is
  modelled as a `List ListNode`.
* A Rust `panic!` / failed `assert!` / failed `expect` is modelled as `none`
  (resp. `Except.error`); the embedded functions return `Option`/`Except`.
* On the x86_64 target `mem::size_of::<ListNode>() = 16` (a `usize` plus a
  niche-optimised `Option<&'static mut ListNode>`) and
  `mem::align_of::<ListNode>() = 8`.
-/

set_option autoImplicit false

deriving instance DecidableEq for Except

namespace Clacos

/-- `usize::MAX` on the x86_64 target. -/
def USIZE_MAX : Nat := 2 ^ 64 - 1

/-- `isize::MAX` on the x86_64 target (used by `Layout::from_size_align`). -/
def ISIZE_MAX : Nat := 2 ^ 63 - 1

/-- `mem::size_of::<ListNode>()` on x86_64: an 8-byte `usize` plus an 8-byte
niche-optimised `Option<&'static mut ListNode>`. -/
def sizeOfListNode : Nat := 16

/-- `mem::align_of::<ListNode>()` on x86_64. -/
def alignOfListNode : Nat := 8

/-- `usize::checked_add`: `none` models the `None` overflow result. -/
def checked_add (a b : Nat) : Option Nat :=
  if a + b ≤ USIZE_MAX then some (a + b) else none

/-- Modelled from the spec: the function `fast_align_up` is declared in
`src/allocator/mod.rs`, which is not part of the provided sources; §4.1 of the
spec defines it as "the smallest multiple of `alignment` that is ≥ `address`"
(precondition: `alignment` is a power of two).  For `0 < align` the closed
form below is exactly that least multiple (`fast_align_up_least` proves it). -/
def fast_align_up (addr align : Nat) : Nat :=
  ((addr + align - 1) / align) * align

/-- `usize::is_power_of_two`: a 64-bit value is a power of two iff it equals
`2^k` for some `k < 64`. -/
def isPow2 (n : Nat) : Bool :=
  (List.range 64).any fun k => n == 2 ^ k

/-- `core::alloc::Layout`: a request size in bytes and an alignment. -/
structure Layout where
  size : Nat
  align : Nat
deriving DecidableEq, Repr

namespace Layout

/-- `Layout::from_size_align`: errors when the alignment is not a power of
two or when the size exceeds `isize::MAX - (align - 1)`. -/
def from_size_align (size align : Nat) : Except Unit Layout :=
  if isPow2 align = true then
    if ISIZE_MAX - (align - 1) < size then .error ()
    else .ok ⟨size, align⟩
  else .error ()

/-- `Layout::align_to`: same size, alignment raised to `max self.align align`,
re-checked through `from_size_align`. -/
def align_to (l : Layout) (align : Nat) : Except Unit Layout :=
  from_size_align l.size (max l.align align)

/-- `Layout::pad_to_align`: round the size up to a multiple of the alignment
(the Rust mask formula `(size + align - 1) & !(align - 1)` equals
`fast_align_up` for the power-of-two alignments a `Layout` carries). -/
def pad_to_align (l : Layout) : Layout :=
  ⟨fast_align_up l.size l.align, l.align⟩

end Layout

/-- The metadata stored at the start of every *free* memory region
(`struct ListNode { size: usize, next: Option<&'static mut ListNode> }`).
`addr` is the node's own address (`self as *const Self as usize`, which *is*
the start address of the region); the `next` chain is represented by the
position of the node in the surrounding `List ListNode`. -/
structure ListNode where
  addr : Nat
  size : Nat
deriving DecidableEq, Repr

namespace ListNode

/-- `ListNode::start_addr`. -/
def start_addr (n : ListNode) : Nat := n.addr

/-- `ListNode::end_addr`. -/
def end_addr (n : ListNode) : Nat := n.addr + n.size

end ListNode

/-- `LinkedListAllocator { head: ListNode }`: `headSize` is the `size` field
of the sentinel node owned by the allocator itself, and `freeList` is the
chain of nodes hanging off the sentinel's `next` pointer, front first. -/
structure LinkedListAllocator where
  headSize : Nat
  freeList : List ListNode
deriving DecidableEq, Repr

namespace LinkedListAllocator

/-- `LinkedListAllocator::new`: sentinel of size 0, empty chain. -/
def new : LinkedListAllocator := ⟨0, []⟩

/-- `LinkedListAllocator::add_free_region`: asserts that `addr` is aligned
for a `ListNode` and that `size` can hold one (a failed `assert!` is `none`),
then prepends a node written at `addr` to the front of the list. -/
def add_free_region (st : LinkedListAllocator) (addr size : Nat) :
    Option LinkedListAllocator :=
  if fast_align_up addr alignOfListNode = addr ∧ sizeOfListNode ≤ size then
    some ⟨st.headSize, ⟨addr, size⟩ :: st.freeList⟩
  else none

/-- `LinkedListAllocator::init`: seed the list with one region covering the
whole heap. -/
def init (st : LinkedListAllocator) (heap_start heap_size : Nat) :
    Option LinkedListAllocator :=
  add_free_region st heap_start heap_size

/-- `LinkedListAllocator::alloc_from_region_possible`: the fit test.  On
success returns the aligned start address of the allocation. -/
def alloc_from_region_possible (region : ListNode) (size align : Nat) :
    Except Unit Nat :=
  let alloc_start := fast_align_up region.start_addr align
  match checked_add alloc_start size with
  | none => .error ()
  | some alloc_end =>
    if region.end_addr < alloc_end then
      -- region too small
      .error ()
    else if 0 < region.end_addr - alloc_end ∧
        region.end_addr - alloc_end < sizeOfListNode then
      -- leftover too small to hold a ListNode
      .error ()
    else
      .ok alloc_start

/-- `LinkedListAllocator::find_region`: first-fit scan of the chain hanging
off the sentinel (the sentinel itself is only the initial value of
`previous`, never a candidate).  Returns the removed node, the aligned start
address, and the remaining chain with the predecessor's `next` rewired to
skip the removed node. -/
def find_region (l : List ListNode) (size align : Nat) :
    Option (ListNode × Nat × List ListNode) :=
  match l with
  | [] => none
  | region :: rest =>
    match alloc_from_region_possible region size align with
    | .ok alloc_start => some (region, alloc_start, rest)
    | .error _ =>
      match find_region rest size align with
      | some (node, alloc_start, rest') => some (node, alloc_start, region :: rest')
      | none => none

/-- `LinkedListAllocator::size_align`: adjust the layout so that the
allocated region can later host a `ListNode`.  The `expect` on `align_to`
failure is modelled as `none`. -/
def size_align (layout : Layout) : Option (Nat × Nat) :=
  match layout.align_to alignOfListNode with
  | .error _ => none
  | .ok l =>
    let padded := l.pad_to_align
    some (max padded.size sizeOfListNode, padded.align)

end LinkedListAllocator

namespace GlobalAlloc

open LinkedListAllocator

/-- `GlobalAlloc::alloc` for `Locked<LinkedListAllocator>` (the lock only
serialises access and is not part of the functional model).  The outer `none`
models a panic (`expect("overflow")` or a failed assertion inside
`add_free_region`); `some (none, st)` models returning the null pointer (out
of memory) with the state unchanged. -/
def alloc (st : LinkedListAllocator) (layout : Layout) :
    Option (Option Nat × LinkedListAllocator) :=
  match size_align layout with
  | none => none
  | some (size, align) =>
    match find_region st.freeList size align with
    | some (region, alloc_start, rest) =>
      match checked_add alloc_start size with
      | none => none
      | some alloc_end =>
        let excess_size := region.end_addr - alloc_end
        if 0 < excess_size then
          match add_free_region ⟨st.headSize, rest⟩ alloc_end excess_size with
          | none => none
          | some st' => some (some alloc_start, st')
        else
          some (some alloc_start, ⟨st.headSize, rest⟩)
    | none =>
      -- no suitable memory region found (out of memory)
      some (none, st)

/-- `GlobalAlloc::dealloc` for `Locked<LinkedListAllocator>`. -/
def dealloc (st : LinkedListAllocator) (p : Nat) (layout : Layout) :
    Option LinkedListAllocator :=
  match size_align layout with
  | none => none
  | some (size, _) => add_free_region st p size

end GlobalAlloc

/-- One external call to the allocator (the two public entry points). -/
inductive Op where
  | alloc (layout : Layout)
  | dealloc (p : Nat) (layout : Layout)

/-- Run one call, keeping only the allocator state. -/
def runOp (st : LinkedListAllocator) : Op → Option LinkedListAllocator
  | .alloc layout => (GlobalAlloc.alloc st layout).map (·.2)
  | .dealloc p layout => GlobalAlloc.dealloc st p layout

/-- Run a sequence of calls; `none` as soon as one panics. -/
def runOps (st : LinkedListAllocator) : List Op → Option LinkedListAllocator
  | [] => some st
  | op :: ops =>
    match runOp st op with
    | none => none
    | some st' => runOps st' ops

/-- Total number of bytes tracked by the free list. -/
def sum_free_sizes (l : List ListNode) : Nat :=
  (l.map ListNode.size).sum

/-! ## Arithmetic facts about `fast_align_up` and `isPow2` -/

theorem fast_align_up_ge {addr align : Nat} (h : 0 < align) :
    addr ≤ fast_align_up addr align := by
  have h1 := Nat.div_add_mod (addr + align - 1) align
  have h2 : (addr + align - 1) % align < align := Nat.mod_lt _ h
  unfold fast_align_up
  rw [Nat.mul_comm]
  generalize hm : (addr + align - 1) % align = m at h1 h2
  generalize ht : align * ((addr + align - 1) / align) = t at h1 ⊢
  omega

theorem fast_align_up_lt {addr align : Nat} (h : 0 < align) :
    fast_align_up addr align < addr + align := by
  have h1 := Nat.div_add_mod (addr + align - 1) align
  have h2 : (addr + align - 1) % align < align := Nat.mod_lt _ h
  unfold fast_align_up
  rw [Nat.mul_comm]
  generalize hm : (addr + align - 1) % align = m at h1 h2
  generalize ht : align * ((addr + align - 1) / align) = t at h1 ⊢
  omega

theorem fast_align_up_dvd (addr align : Nat) : align ∣ fast_align_up addr align :=
  dvd_mul_left align _

theorem fast_align_up_of_dvd {addr align : Nat} (h : 0 < align) (hd : align ∣ addr) :
    fast_align_up addr align = addr := by
  obtain ⟨k, rfl⟩ := hd
  unfold fast_align_up
  have h3 : align * k + align - 1 = align * k + (align - 1) := by omega
  rw [h3, Nat.mul_add_div h, Nat.div_eq_of_lt (by omega), Nat.add_zero, Nat.mul_comm]

theorem dvd_of_fast_align_up_eq {addr align : Nat}
    (h : fast_align_up addr align = addr) : align ∣ addr :=
  h ▸ fast_align_up_dvd addr align

theorem fast_align_up_eq_iff {addr align : Nat} (h : 0 < align) :
    fast_align_up addr align = addr ↔ align ∣ addr :=
  ⟨dvd_of_fast_align_up_eq, fast_align_up_of_dvd h⟩

/-- `fast_align_up` is exactly what the spec asks for: the smallest multiple
of `align` that is `≥ addr`. -/
theorem fast_align_up_least {addr align : Nat} (h : 0 < align) :
    addr ≤ fast_align_up addr align ∧ align ∣ fast_align_up addr align ∧
      ∀ m, addr ≤ m → align ∣ m → fast_align_up addr align ≤ m := by
  refine ⟨fast_align_up_ge h, fast_align_up_dvd addr align, fun m hm hdm => ?_⟩
  rcases le_or_lt (fast_align_up addr align) m with hle | hlt
  · exact hle
  · exfalso
    have hd : align ∣ fast_align_up addr align - m :=
      Nat.dvd_sub' (fast_align_up_dvd addr align) hdm
    have hpos : 0 < fast_align_up addr align - m := by omega
    have := Nat.le_of_dvd hpos hd
    have := @fast_align_up_lt addr align h
    omega

theorem isPow2_iff {n : Nat} : isPow2 n = true ↔ ∃ k, k < 64 ∧ n = 2 ^ k := by
  simp [isPow2, List.any_eq_true, List.mem_range]

theorem isPow2_pos {n : Nat} (h : isPow2 n = true) : 0 < n := by
  obtain ⟨k, -, rfl⟩ := isPow2_iff.mp h
  exact Nat.pow_pos (by norm_num)

theorem pow2_dvd_of_le {a b : Nat} (ha : isPow2 a = true) (hb : isPow2 b = true)
    (h : a ≤ b) : a ∣ b := by
  obtain ⟨i, -, rfl⟩ := isPow2_iff.mp ha
  obtain ⟨j, -, rfl⟩ := isPow2_iff.mp hb
  exact pow_dvd_pow 2 ((Nat.pow_le_pow_iff_right (by norm_num)).mp h)

theorem isPow2_max_align {a : Nat} (ha : isPow2 a = true) :
    isPow2 (max a alignOfListNode) = true := by
  rcases Nat.le_total a alignOfListNode with h | h
  · rw [Nat.max_eq_right h]; decide
  · rw [Nat.max_eq_left h]; exact ha

theorem align_dvd_max {a : Nat} (ha : isPow2 a = true) :
    alignOfListNode ∣ max a alignOfListNode :=
  pow2_dvd_of_le (by decide) (isPow2_max_align ha) (Nat.le_max_right _ _)

theorem self_dvd_max {a : Nat} (ha : isPow2 a = true) :
    a ∣ max a alignOfListNode :=
  pow2_dvd_of_le ha (isPow2_max_align ha) (Nat.le_max_left _ _)

/-! ## Characterisation of `size_align` -/

theorem size_align_eq {layout : Layout}
    (hp : isPow2 (max layout.align alignOfListNode) = true)
    (hsz : layout.size ≤ ISIZE_MAX - (max layout.align alignOfListNode - 1)) :
    LinkedListAllocator.size_align layout =
      some (max (fast_align_up layout.size (max layout.align alignOfListNode))
          sizeOfListNode,
        max layout.align alignOfListNode) := by
  unfold LinkedListAllocator.size_align Layout.align_to Layout.from_size_align
  rw [if_pos hp, if_neg (by omega)]
  rfl

theorem size_align_inv {layout : Layout} {S A : Nat}
    (h : LinkedListAllocator.size_align layout = some (S, A)) :
    A = max layout.align alignOfListNode ∧
      S = max (fast_align_up layout.size A) sizeOfListNode ∧
      isPow2 A = true ∧
      layout.size ≤ ISIZE_MAX - (max layout.align alignOfListNode - 1) := by
  unfold LinkedListAllocator.size_align Layout.align_to Layout.from_size_align at h
  by_cases hp : isPow2 (max layout.align alignOfListNode) = true
  · rw [if_pos hp] at h
    by_cases hsz : ISIZE_MAX - (max layout.align alignOfListNode - 1) < layout.size
    · rw [if_pos hsz] at h
      simp at h
    · rw [if_neg hsz] at h
      simp only [Layout.pad_to_align, Option.some.injEq, Prod.mk.injEq] at h
      obtain ⟨hS, hA⟩ := h
      subst hA
      exact ⟨rfl, hS.symm, hp, by omega⟩
  · rw [if_neg hp] at h
    simp at h

/-- Facts about the adjusted pair that every later proof needs. -/
theorem size_align_facts {layout : Layout} {S A : Nat}
    (h : LinkedListAllocator.size_align layout = some (S, A)) :
    0 < A ∧ alignOfListNode ∣ A ∧ alignOfListNode ∣ S ∧ sizeOfListNode ≤ S := by
  obtain ⟨hA, hS, hp, -⟩ := size_align_inv h
  have h8A : alignOfListNode ∣ A :=
    pow2_dvd_of_le (by decide) hp (hA ▸ Nat.le_max_right _ _)
  refine ⟨isPow2_pos hp, h8A, ?_, hS ▸ Nat.le_max_right _ _⟩
  rcases max_choice (fast_align_up layout.size A) sizeOfListNode with hc | hc
  · rw [hS, hc]
    exact dvd_trans h8A (fast_align_up_dvd _ _)
  · rw [hS, hc]
    decide

/-! ## Characterisation of the fit test -/

theorem alloc_from_region_possible_ok_iff {region : ListNode} {size align s : Nat} :
    LinkedListAllocator.alloc_from_region_possible region size align = .ok s ↔
      s = fast_align_up region.start_addr align ∧
      fast_align_up region.start_addr align + size ≤ USIZE_MAX ∧
      fast_align_up region.start_addr align + size ≤ region.end_addr ∧
      (region.end_addr - (fast_align_up region.start_addr align + size) = 0 ∨
        sizeOfListNode ≤
          region.end_addr - (fast_align_up region.start_addr align + size)) := by
  unfold LinkedListAllocator.alloc_from_region_possible checked_add
  by_cases h1 : fast_align_up region.start_addr align + size ≤ USIZE_MAX
  · simp only [if_pos h1]
    by_cases h2 : region.end_addr < fast_align_up region.start_addr align + size
    · simp only [if_pos h2]
      constructor
      · intro h; simp at h
      · intro h; omega
    · simp only [if_neg h2]
      by_cases h3 : 0 < region.end_addr - (fast_align_up region.start_addr align + size) ∧
          region.end_addr - (fast_align_up region.start_addr align + size) < sizeOfListNode
      · simp only [if_pos h3]
        constructor
        · intro h; simp at h
        · intro h; omega
      · simp only [if_neg h3, Except.ok.injEq]
        constructor
        · intro h; exact ⟨h.symm, h1, by omega, by omega⟩
        · intro h; exact h.1.symm
  · simp only [if_neg h1]
    constructor
    · intro h; simp at h
    · intro h; omega

theorem alloc_from_region_possible_cases (region : ListNode) (size align : Nat) :
    LinkedListAllocator.alloc_from_region_possible region size align =
        .ok (fast_align_up region.start_addr align) ∨
      LinkedListAllocator.alloc_from_region_possible region size align = .error () := by
  cases h : LinkedListAllocator.alloc_from_region_possible region size align with
  | ok v =>
    left
    have hv := (alloc_from_region_possible_ok_iff.mp h).1
    rw [hv]
  | error e => cases e; right; rfl

/-! ## Structure of the first-fit scan -/

theorem find_region_some {size align : Nat} {l : List ListNode} {r : ListNode}
    {s : Nat} {l' : List ListNode}
    (h : LinkedListAllocator.find_region l size align = some (r, s, l')) :
    ∃ pre post, l = pre ++ r :: post ∧ l' = pre ++ post ∧
      (∀ x ∈ pre,
        LinkedListAllocator.alloc_from_region_possible x size align = .error ()) ∧
      LinkedListAllocator.alloc_from_region_possible r size align = .ok s := by
  induction l generalizing l' with
  | nil => simp [LinkedListAllocator.find_region] at h
  | cons a rest ih =>
    rw [LinkedListAllocator.find_region] at h
    cases hfit : LinkedListAllocator.alloc_from_region_possible a size align with
    | ok v =>
      rw [hfit] at h
      simp only [Option.some.injEq, Prod.mk.injEq] at h
      obtain ⟨h1, h2, h3⟩ := h
      subst h1; subst h2; subst h3
      exact ⟨[], rest, rfl, rfl, by simp, hfit⟩
    | error e =>
      cases e
      rw [hfit] at h
      cases hrec : LinkedListAllocator.find_region rest size align with
      | none => rw [hrec] at h; simp at h
      | some trip =>
        obtain ⟨n, s2, rest'⟩ := trip
        rw [hrec] at h
        simp only [Option.some.injEq, Prod.mk.injEq] at h
        obtain ⟨h1, h2, h3⟩ := h
        subst h1; subst h2; subst h3
        obtain ⟨pre, post, hl, hl', hfail, hok⟩ := ih hrec
        refine ⟨a :: pre, post, by rw [hl]; rfl, by rw [hl']; rfl, ?_, hok⟩
        intro x hx
        rcases List.mem_cons.mp hx with hx | hx
        · subst hx; exact hfit
        · exact hfail x hx

theorem find_region_none {size align : Nat} {l : List ListNode} :
    LinkedListAllocator.find_region l size align = none ↔
      ∀ x ∈ l,
        LinkedListAllocator.alloc_from_region_possible x size align = .error () := by
  induction l with
  | nil => simp [LinkedListAllocator.find_region]
  | cons a rest ih =>
    rw [LinkedListAllocator.find_region]
    cases hfit : LinkedListAllocator.alloc_from_region_possible a size align with
    | ok v =>
      simp only []
      constructor
      · intro h; simp at h
      · intro h
        have := h a (by simp)
        rw [hfit] at this
        simp at this
    | error e =>
      cases e
      cases hrec : LinkedListAllocator.find_region rest size align with
      | none =>
        simp only []
        constructor
        · intro _ x hx
          rcases List.mem_cons.mp hx with hx | hx
          · subst hx; exact hfit
          · exact (ih.mp hrec) x hx
        · intro _; trivial
      | some trip =>
        obtain ⟨n, s2, rest'⟩ := trip
        simp only []
        constructor
        · intro h; simp at h
        · intro h
          have : LinkedListAllocator.find_region rest size align = none :=
            ih.mpr fun x hx => h x (List.mem_cons_of_mem a hx)
          rw [hrec] at this
          simp at this

/-! ## Behaviour of the two entry points -/

open LinkedListAllocator

theorem add_free_region_some {st : LinkedListAllocator} {addr size : Nat}
    (h8 : alignOfListNode ∣ addr) (hsz : sizeOfListNode ≤ size) :
    add_free_region st addr size =
      some ⟨st.headSize, ⟨addr, size⟩ :: st.freeList⟩ := by
  unfold add_free_region
  rw [if_pos ⟨fast_align_up_of_dvd (by decide) h8, hsz⟩]

theorem add_free_region_inv {st st' : LinkedListAllocator} {addr size : Nat}
    (h : add_free_region st addr size = some st') :
    alignOfListNode ∣ addr ∧ sizeOfListNode ≤ size ∧
      st' = ⟨st.headSize, ⟨addr, size⟩ :: st.freeList⟩ := by
  unfold add_free_region at h
  by_cases hc : fast_align_up addr alignOfListNode = addr ∧ sizeOfListNode ≤ size
  · rw [if_pos hc] at h
    exact ⟨dvd_of_fast_align_up_eq hc.1, hc.2, by simpa using h.symm⟩
  · rw [if_neg hc] at h
    simp at h

theorem dealloc_eq {st : LinkedListAllocator} {p : Nat} {layout : Layout}
    {S A : Nat} (hsa : size_align layout = some (S, A)) :
    GlobalAlloc.dealloc st p layout = add_free_region st p S := by
  unfold GlobalAlloc.dealloc
  rw [hsa]

theorem alloc_eq_oom {st : LinkedListAllocator} {layout : Layout} {S A : Nat}
    (hsa : size_align layout = some (S, A))
    (hnone : find_region st.freeList S A = none) :
    GlobalAlloc.alloc st layout = some (none, st) := by
  unfold GlobalAlloc.alloc
  simp only [hsa, hnone]

theorem alloc_eq_of_find {st : LinkedListAllocator} {layout : Layout} {S A : Nat}
    {r : ListNode} {s : Nat} {rest : List ListNode}
    (hsa : size_align layout = some (S, A))
    (hfind : find_region st.freeList S A = some (r, s, rest)) :
    GlobalAlloc.alloc st layout =
      if 0 < r.end_addr - (s + S) then
        some (some s, ⟨st.headSize, ⟨s + S, r.end_addr - (s + S)⟩ :: rest⟩)
      else some (some s, ⟨st.headSize, rest⟩) := by
  obtain ⟨pre, post, -, -, -, hok⟩ := find_region_some hfind
  obtain ⟨hs, hov, hle, hleft⟩ := alloc_from_region_possible_ok_iff.mp hok
  rw [← hs] at hov hle hleft
  obtain ⟨hApos, h8A, h8S, h16S⟩ := size_align_facts hsa
  have h8s : alignOfListNode ∣ s := hs ▸ dvd_trans h8A (fast_align_up_dvd _ _)
  have h8e : alignOfListNode ∣ (s + S) := Nat.dvd_add h8s h8S
  unfold GlobalAlloc.alloc
  simp only [hsa, hfind, checked_add, if_pos hov]
  by_cases hex : 0 < r.end_addr - (s + S)
  · rw [if_pos hex, if_pos hex]
    unfold add_free_region
    rw [if_pos ⟨fast_align_up_of_dvd (by decide) h8e, by omega⟩]
  · rw [if_neg hex, if_neg hex]

theorem alloc_success_inv {st st₁ : LinkedListAllocator} {layout : Layout} {a : Nat}
    (h : GlobalAlloc.alloc st layout = some (some a, st₁)) :
    ∃ S A r rest,
      size_align layout = some (S, A) ∧
      find_region st.freeList S A = some (r, a, rest) ∧
      alloc_from_region_possible r S A = .ok a ∧
      ((r.end_addr - (a + S) = 0 ∧ st₁ = ⟨st.headSize, rest⟩) ∨
        (sizeOfListNode ≤ r.end_addr - (a + S) ∧ alignOfListNode ∣ (a + S) ∧
          st₁ = ⟨st.headSize, ⟨a + S, r.end_addr - (a + S)⟩ :: rest⟩)) := by
  unfold GlobalAlloc.alloc at h
  cases hsa : size_align layout with
  | none => rw [hsa] at h; simp at h
  | some pair =>
    obtain ⟨S, A⟩ := pair
    rw [hsa] at h
    cases hfind : find_region st.freeList S A with
    | none =>
      simp only [hfind] at h
      simp at h
    | some trip =>
      obtain ⟨r, s, rest⟩ := trip
      simp only [hfind] at h
      obtain ⟨pre, post, -, -, -, hok⟩ := find_region_some hfind
      obtain ⟨hs, hov, hle, hleft⟩ := alloc_from_region_possible_ok_iff.mp hok
      rw [← hs] at hov hle hleft
      simp only [checked_add, if_pos hov] at h
      by_cases hex : 0 < r.end_addr - (s + S)
      · rw [if_pos hex] at h
        unfold add_free_region at h
        by_cases hc : fast_align_up (s + S) alignOfListNode = s + S ∧
            sizeOfListNode ≤ r.end_addr - (s + S)
        · simp only [if_pos hc, Option.some.injEq, Prod.mk.injEq] at h
          obtain ⟨ha, hst⟩ := h
          subst ha
          exact ⟨S, A, r, rest, rfl, hfind, hok, Or.inr
            ⟨hc.2, dvd_of_fast_align_up_eq hc.1, hst.symm⟩⟩
        · simp only [if_neg hc] at h
          simp at h
      · rw [if_neg hex] at h
        simp only [Option.some.injEq, Prod.mk.injEq] at h
        obtain ⟨ha, hst⟩ := h
        subst ha
        exact ⟨S, A, r, rest, rfl, hfind, hok, Or.inl ⟨by omega, hst.symm⟩⟩

theorem alloc_oom_inv {st st₁ : LinkedListAllocator} {layout : Layout}
    (h : GlobalAlloc.alloc st layout = some (none, st₁)) :
    st₁ = st ∧ ∃ S A, size_align layout = some (S, A) ∧
      find_region st.freeList S A = none := by
  unfold GlobalAlloc.alloc at h
  cases hsa : size_align layout with
  | none => rw [hsa] at h; simp at h
  | some pair =>
    obtain ⟨S, A⟩ := pair
    rw [hsa] at h
    cases hfind : find_region st.freeList S A with
    | none =>
      simp only [hfind] at h
      simp only [Option.some.injEq, Prod.mk.injEq] at h
      exact ⟨h.2.symm, S, A, rfl, hfind⟩
    | some trip =>
      obtain ⟨r, s, rest⟩ := trip
      simp only [hfind] at h
      obtain ⟨pre, post, -, -, -, hok⟩ := find_region_some hfind
      obtain ⟨hs, hov, hle, hleft⟩ := alloc_from_region_possible_ok_iff.mp hok
      rw [← hs] at hov hle hleft
      simp only [checked_add, if_pos hov] at h
      by_cases hex : 0 < r.end_addr - (s + S)
      · rw [if_pos hex] at h
        unfold add_free_region at h
        by_cases hc : fast_align_up (s + S) alignOfListNode = s + S ∧
            sizeOfListNode ≤ r.end_addr - (s + S)
        · simp only [if_pos hc] at h
          simp at h
        · simp only [if_neg hc] at h
          simp at h
      · rw [if_neg hex] at h
        simp at h

theorem dealloc_inv {st st' : LinkedListAllocator} {p : Nat} {layout : Layout}
    (h : GlobalAlloc.dealloc st p layout = some st') :
    ∃ S A, size_align layout = some (S, A) ∧ add_free_region st p S = some st' := by
  unfold GlobalAlloc.dealloc at h
  cases hsa : size_align layout with
  | none => rw [hsa] at h; simp at h
  | some pair =>
    obtain ⟨S, A⟩ := pair
    rw [hsa] at h
    exact ⟨S, A, rfl, h⟩

/-! ## Preservation of the free-list well-formedness invariant -/

/-- Every node of the chain describes a region large enough to host a
`ListNode` and starts at an address aligned for one. -/
def listWF (l : List ListNode) : Prop :=
  ∀ r ∈ l, sizeOfListNode ≤ r.size ∧ alignOfListNode ∣ r.addr

theorem listWF_of_append_cons {pre post : List ListNode} {r : ListNode}
    (hw : listWF (pre ++ r :: post)) : listWF (pre ++ post) := by
  intro x hx
  apply hw
  rcases List.mem_append.mp hx with h | h
  · exact List.mem_append.mpr (Or.inl h)
  · exact List.mem_append.mpr (Or.inr (List.mem_cons_of_mem _ h))

theorem runOp_wf {st st' : LinkedListAllocator} {op : Op}
    (h : runOp st op = some st') (hw : listWF st.freeList) :
    st'.headSize = st.headSize ∧ listWF st'.freeList := by
  cases op with
  | alloc layout =>
    simp only [runOp] at h
    cases halloc : GlobalAlloc.alloc st layout with
    | none => rw [halloc] at h; simp at h
    | some pair =>
      obtain ⟨res, st₂⟩ := pair
      rw [halloc] at h
      simp only [Option.map_some', Option.some.injEq] at h
      subst h
      cases res with
      | none =>
        obtain ⟨rfl, -⟩ := alloc_oom_inv halloc
        exact ⟨rfl, hw⟩
      | some a =>
        obtain ⟨S, A, r, rest, hsa, hfind, hok, hcases⟩ := alloc_success_inv halloc
        obtain ⟨pre, post, hl, hl', -, -⟩ := find_region_some hfind
        have hwrest : listWF rest := by
          subst hl'
          exact listWF_of_append_cons (hl ▸ hw)
        rcases hcases with ⟨-, rfl⟩ | ⟨hsz, h8, rfl⟩
        · exact ⟨rfl, hwrest⟩
        · refine ⟨rfl, fun x hx => ?_⟩
          rcases List.mem_cons.mp hx with hx | hx
          · subst hx; exact ⟨hsz, h8⟩
          · exact hwrest x hx
  | dealloc p layout =>
    simp only [runOp] at h
    obtain ⟨S, A, hsa, hadd⟩ := dealloc_inv h
    obtain ⟨h8, hsz, rfl⟩ := add_free_region_inv hadd
    refine ⟨rfl, fun x hx => ?_⟩
    rcases List.mem_cons.mp hx with hx | hx
    · subst hx; exact ⟨hsz, h8⟩
    · exact hw x hx

theorem runOps_wf {ops : List Op} {st st' : LinkedListAllocator}
    (h : runOps st ops = some st') (hw : listWF st.freeList) :
    st'.headSize = st.headSize ∧ listWF st'.freeList := by
  induction ops generalizing st with
  | nil =>
    simp only [runOps, Option.some.injEq] at h
    subst h
    exact ⟨rfl, hw⟩
  | cons op ops ih =>
    rw [runOps] at h
    cases hop : runOp st op with
    | none => rw [hop] at h; simp at h
    | some st₁ =>
      rw [hop] at h
      obtain ⟨h1, h2⟩ := runOp_wf hop hw
      obtain ⟨h3, h4⟩ := ih h h2
      exact ⟨h3.trans h1, h4⟩

/-! ## Byte accounting -/

theorem sum_free_sizes_append (l₁ l₂ : List ListNode) :
    sum_free_sizes (l₁ ++ l₂) = sum_free_sizes l₁ + sum_free_sizes l₂ := by
  simp [sum_free_sizes]

theorem sum_free_sizes_cons (r : ListNode) (l : List ListNode) :
    sum_free_sizes (r :: l) = r.size + sum_free_sizes l := by
  simp [sum_free_sizes]

/-! ## The claims -/

/-- C2: `find_region` scans the list in order starting from the sentinel,
returns the first node passing the fit test together with the computed
aligned start address, unlinks exactly that node (its predecessor's `next`
skips it) leaving every other node and their relative order unchanged, and
returns nothing when no node fits. -/
theorem claim2_find_region_first_fit (l : List ListNode) (size align : Nat) :
    (∀ r s l', find_region l size align = some (r, s, l') →
      s = fast_align_up r.start_addr align ∧
      ∃ pre post, l = pre ++ r :: post ∧ l' = pre ++ post ∧
        (∀ x ∈ pre,
          alloc_from_region_possible x size align = .error ()) ∧
        alloc_from_region_possible r size align = .ok s) ∧
    (find_region l size align = none ↔
      ∀ x ∈ l, alloc_from_region_possible x size align = .error ()) := by
  refine ⟨fun r s l' h => ?_, find_region_none⟩
  obtain ⟨pre, post, h1, h2, h3, h4⟩ := find_region_some h
  exact ⟨(alloc_from_region_possible_ok_iff.mp h4).1, pre, post, h1, h2, h3, h4⟩

theorem claim2_witness :
    find_region [⟨1024, 8⟩] 16 8 = none :=
  (claim2_find_region_first_fit [⟨1024, 8⟩] 16 8).2.mpr (by decide)

/-- C3: the fit test returns `Ok (align_up (region.start, align))` iff the
aligned end address does not overflow `usize`, does not exceed `region.end`,
and the leftover is zero or at least `size_of::<ListNode>`; in every other
case it returns an error — in particular address overflow is an error, the
computation never wraps. -/
theorem claim3_fit_test_iff (region : ListNode) (size align : Nat) :
    (alloc_from_region_possible region size align =
        .ok (fast_align_up region.start_addr align) ↔
      fast_align_up region.start_addr align + size ≤ USIZE_MAX ∧
      fast_align_up region.start_addr align + size ≤ region.end_addr ∧
      (region.end_addr - (fast_align_up region.start_addr align + size) = 0 ∨
        sizeOfListNode ≤
          region.end_addr - (fast_align_up region.start_addr align + size))) ∧
    (¬ (fast_align_up region.start_addr align + size ≤ USIZE_MAX ∧
        fast_align_up region.start_addr align + size ≤ region.end_addr ∧
        (region.end_addr - (fast_align_up region.start_addr align + size) = 0 ∨
          sizeOfListNode ≤
            region.end_addr - (fast_align_up region.start_addr align + size))) →
      alloc_from_region_possible region size align = .error ()) := by
  constructor
  · constructor
    · intro h
      exact (alloc_from_region_possible_ok_iff.mp h).2
    · intro h
      exact alloc_from_region_possible_ok_iff.mpr ⟨rfl, h⟩
  · intro hn
    rcases alloc_from_region_possible_cases region size align with h | h
    · exact absurd (alloc_from_region_possible_ok_iff.mp h).2 hn
    · exact h

theorem claim3_witness :
    alloc_from_region_possible ⟨1024, 128⟩ 32 8 = .ok 1024 :=
  (claim3_fit_test_iff ⟨1024, 128⟩ 32 8).1.mpr (by decide)

/-- C4: when the size adjustment succeeds and no free region fits, `alloc`
returns the out-of-memory result (the null pointer) with the free list
exactly as before; and `alloc` never panics for such a request: the
`expect("overflow")` on the success path and the alignment/size assertions
reached through the split's `add_free_region` never fire (`isSome` means no
panic in the model). -/
theorem claim4_oom_no_abort (st : LinkedListAllocator) (layout : Layout)
    (S A : Nat) ( _hpow : isPow2 layout.align = true) ( _hpos : 0 < layout.size)
    (hsa : size_align layout = some (S, A)) :
    (GlobalAlloc.alloc st layout).isSome = true ∧
    (find_region st.freeList S A = none →
      GlobalAlloc.alloc st layout = some (none, st)) := by
  refine ⟨?_, fun hnone => alloc_eq_oom hsa hnone⟩
  cases hfind : find_region st.freeList S A with
  | none => rw [alloc_eq_oom hsa hfind]; rfl
  | some trip =>
    obtain ⟨r, s, rest⟩ := trip
    rw [alloc_eq_of_find hsa hfind]
    by_cases hex : 0 < r.end_addr - (s + S)
    · rw [if_pos hex]; rfl
    · rw [if_neg hex]; rfl

theorem claim4_witness :
    GlobalAlloc.alloc ⟨0, [⟨4096, 24⟩]⟩ ⟨100, 8⟩ =
      some (none, ⟨0, [⟨4096, 24⟩]⟩) :=
  (claim4_oom_no_abort ⟨0, [⟨4096, 24⟩]⟩ ⟨100, 8⟩ 104 8 (by decide) (by decide)
    (by decide)).2 (by decide)

/-- C5: `size_align` returns alignment `max (layout.align, align_of::<ListNode>)`
and size `layout.size` padded up to a multiple of that effective alignment and
then raised to at least `size_of::<ListNode>`; and `dealloc` applies the same
function to the same layout, so a matching `dealloc` recomputes the identical
adjusted size (it calls `add_free_region` with exactly that size). -/
theorem claim5_size_align (layout : Layout)
    (hpow : isPow2 layout.align = true)
    (hsz : layout.size ≤ ISIZE_MAX - (max layout.align alignOfListNode - 1)) :
    size_align layout =
      some (max (fast_align_up layout.size (max layout.align alignOfListNode))
          sizeOfListNode,
        max layout.align alignOfListNode) ∧
    ∀ st p, GlobalAlloc.dealloc st p layout =
      add_free_region st p
        (max (fast_align_up layout.size (max layout.align alignOfListNode))
          sizeOfListNode) := by
  have h := size_align_eq (isPow2_max_align hpow) hsz
  exact ⟨h, fun st p => dealloc_eq h⟩

theorem claim5_witness :
    size_align ⟨100, 16⟩ = some (112, 16) := by
  rw [(claim5_size_align ⟨100, 16⟩ (by decide) (by decide)).1]
  decide

/-- C8: for the layout with requested size `0` (smaller than the metadata
node) and the large power-of-two requested alignment `32`, `size_align` —
which pads the size to a multiple of the effective alignment first and clamps
to the metadata-node minimum second — returns size `16`, which is not a
multiple of the returned alignment `32`.  (For any positive requested size
the padded size is a positive multiple of the effective alignment and the
clamp cannot break divisibility, so size `0` is the only such case.) -/
theorem claim8_pad_then_clamp_not_multiple :
    ∃ layout : Layout, isPow2 layout.align = true ∧
      layout.size < sizeOfListNode ∧ sizeOfListNode < layout.align ∧
      ∃ S A, size_align layout = some (S, A) ∧ ¬ A ∣ S :=
  ⟨⟨0, 32⟩, by decide, by decide, by decide, 16, 32, by decide, by decide⟩

/-- C1 fails as stated: after the valid `initialize(1024, 17)` (start aligned,
size ≥ 16), the single `allocate(17, 1)` has `0 < n ≤ size` and the trivially
satisfiable alignment `1`, yet the allocator returns the out-of-memory result
(`none` address) because the adjusted size `max (align_up 17 8) 16 = 24`
exceeds the region — so the allocation does not succeed. -/
theorem claim1_counterexample :
    (0 : Nat) < 17 ∧ (17 : Nat) ≤ 17 ∧ isPow2 1 = true ∧
    init new 1024 17 = some ⟨0, [⟨1024, 17⟩]⟩ ∧
    GlobalAlloc.alloc ⟨0, [⟨1024, 17⟩]⟩ ⟨17, 1⟩ =
      some (none, ⟨0, [⟨1024, 17⟩]⟩) := by
  decide

/-- C1 (amended): for a valid `initialize(start, hsize)` followed by a single
`allocate(n, a)` with `0 < n` and power-of-two `a`, the allocation succeeds —
with address `align_up(start, A)` lying in `[start, start+hsize)` and a
multiple of `a` — provided the *adjusted* request fits: with effective
alignment `A = max a 8` and adjusted size `S = max (align_up n A) 16`,
`align_up(start, A) + S ≤ start + hsize` and the leftover is zero or at least
`size_of::<ListNode>` (plus the `usize`/`isize` range side conditions). -/
theorem claim1_amended (start hsize n a : Nat) (st₀ : LinkedListAllocator)
    (hpow : isPow2 a = true) ( _hpos : 0 < n)
    (hinit : init new start hsize = some st₀)
    (hrange : start + hsize ≤ USIZE_MAX)
    (hlsz : n ≤ ISIZE_MAX - (max a alignOfListNode - 1))
    (hfit : fast_align_up start (max a alignOfListNode) +
        max (fast_align_up n (max a alignOfListNode)) sizeOfListNode ≤
        start + hsize)
    (hleft : start + hsize -
          (fast_align_up start (max a alignOfListNode) +
            max (fast_align_up n (max a alignOfListNode)) sizeOfListNode) = 0 ∨
        sizeOfListNode ≤ start + hsize -
          (fast_align_up start (max a alignOfListNode) +
            max (fast_align_up n (max a alignOfListNode)) sizeOfListNode)) :
    ∃ st', GlobalAlloc.alloc st₀ ⟨n, a⟩ =
        some (some (fast_align_up start (max a alignOfListNode)), st') ∧
      start ≤ fast_align_up start (max a alignOfListNode) ∧
      fast_align_up start (max a alignOfListNode) < start + hsize ∧
      a ∣ fast_align_up start (max a alignOfListNode) := by
  obtain ⟨h8, hsz16, hst₀⟩ := add_free_region_inv hinit
  have hApos : 0 < max a alignOfListNode :=
    lt_of_lt_of_le (by decide) (Nat.le_max_right a alignOfListNode)
  have hS16 : sizeOfListNode ≤
      max (fast_align_up n (max a alignOfListNode)) sizeOfListNode :=
    Nat.le_max_right _ _
  have hS16' : (0 : Nat) <
      max (fast_align_up n (max a alignOfListNode)) sizeOfListNode := by
    have : (0 : Nat) < sizeOfListNode := by decide
    omega
  have hsa : size_align ⟨n, a⟩ =
      some (max (fast_align_up n (max a alignOfListNode)) sizeOfListNode,
        max a alignOfListNode) :=
    size_align_eq (isPow2_max_align hpow) hlsz
  have hok : alloc_from_region_possible ⟨start, hsize⟩
      (max (fast_align_up n (max a alignOfListNode)) sizeOfListNode)
      (max a alignOfListNode) =
        .ok (fast_align_up start (max a alignOfListNode)) := by
    apply alloc_from_region_possible_ok_iff.mpr
    exact ⟨rfl, le_trans hfit hrange, hfit, hleft⟩
  have hfree : st₀.freeList = [⟨start, hsize⟩] := by rw [hst₀]; rfl
  have hfind : find_region st₀.freeList
      (max (fast_align_up n (max a alignOfListNode)) sizeOfListNode)
      (max a alignOfListNode) =
        some (⟨start, hsize⟩, fast_align_up start (max a alignOfListNode), []) := by
    rw [hfree]
    simp only [find_region, hok]
  have hrest : start ≤ fast_align_up start (max a alignOfListNode) ∧
      fast_align_up start (max a alignOfListNode) < start + hsize ∧
      a ∣ fast_align_up start (max a alignOfListNode) := by
    refine ⟨fast_align_up_ge hApos, by omega,
      dvd_trans (self_dvd_max hpow) (fast_align_up_dvd start _)⟩
  have heq := alloc_eq_of_find hsa hfind
  by_cases hex : 0 < ListNode.end_addr ⟨start, hsize⟩ -
      (fast_align_up start (max a alignOfListNode) +
        max (fast_align_up n (max a alignOfListNode)) sizeOfListNode)
  · rw [if_pos hex] at heq
    exact ⟨_, heq, hrest.1, hrest.2.1, hrest.2.2⟩
  · rw [if_neg hex] at heq
    exact ⟨_, heq, hrest.1, hrest.2.1, hrest.2.2⟩

theorem claim1_witness :
    ∃ st', GlobalAlloc.alloc ⟨0, [⟨1024, 1024⟩]⟩ ⟨100, 8⟩ =
        some (some (fast_align_up 1024 (max 8 alignOfListNode)), st') ∧
      1024 ≤ fast_align_up 1024 (max 8 alignOfListNode) ∧
      fast_align_up 1024 (max 8 alignOfListNode) < 1024 + 1024 ∧
      8 ∣ fast_align_up 1024 (max 8 alignOfListNode) :=
  claim1_amended 1024 1024 100 8 ⟨0, [⟨1024, 1024⟩]⟩ (by decide) (by decide)
    (by decide) (by decide) (by decide) (by decide) (by decide)

/-- C6 fails as stated: in the exact scenario of the claim — 1024-byte heap
(metadata-node size 16), four 64-byte allocations, blocks #1 and #3 freed —
the subsequent 200-byte allocation does *not* return OutOfMemory: it succeeds
at address 4352, served from the 768-byte tail region that the four
allocations left unfragmented. -/
theorem claim6_counterexample :
    init new 4096 1024 = some ⟨0, [⟨4096, 1024⟩]⟩ ∧
    GlobalAlloc.alloc ⟨0, [⟨4096, 1024⟩]⟩ ⟨64, 8⟩ =
      some (some 4096, ⟨0, [⟨4160, 960⟩]⟩) ∧
    GlobalAlloc.alloc ⟨0, [⟨4160, 960⟩]⟩ ⟨64, 8⟩ =
      some (some 4160, ⟨0, [⟨4224, 896⟩]⟩) ∧
    GlobalAlloc.alloc ⟨0, [⟨4224, 896⟩]⟩ ⟨64, 8⟩ =
      some (some 4224, ⟨0, [⟨4288, 832⟩]⟩) ∧
    GlobalAlloc.alloc ⟨0, [⟨4288, 832⟩]⟩ ⟨64, 8⟩ =
      some (some 4288, ⟨0, [⟨4352, 768⟩]⟩) ∧
    GlobalAlloc.dealloc ⟨0, [⟨4352, 768⟩]⟩ 4096 ⟨64, 8⟩ =
      some ⟨0, [⟨4096, 64⟩, ⟨4352, 768⟩]⟩ ∧
    GlobalAlloc.dealloc ⟨0, [⟨4096, 64⟩, ⟨4352, 768⟩]⟩ 4224 ⟨64, 8⟩ =
      some ⟨0, [⟨4224, 64⟩, ⟨4096, 64⟩, ⟨4352, 768⟩]⟩ ∧
    GlobalAlloc.alloc ⟨0, [⟨4224, 64⟩, ⟨4096, 64⟩, ⟨4352, 768⟩]⟩ ⟨200, 8⟩ =
      some (some 4352, ⟨0, [⟨4552, 568⟩, ⟨4224, 64⟩, ⟨4096, 64⟩]⟩) := by
  decide

/-- C6 (amended): in the same scenario (1024-byte heap at 4096, four 64-byte
allocations, blocks #1 and #3 freed), a single *800-byte* request returns
OutOfMemory with the free list unchanged, even though the freed bytes plus
the heap remainder total 896 ≥ 800 — because adjacent free regions are never
merged, no single region can serve it.  The original 200-byte request instead
succeeds from the 768-byte tail region (see the counterexample). -/
theorem claim6_amended :
    init new 4096 1024 = some ⟨0, [⟨4096, 1024⟩]⟩ ∧
    GlobalAlloc.alloc ⟨0, [⟨4096, 1024⟩]⟩ ⟨64, 8⟩ =
      some (some 4096, ⟨0, [⟨4160, 960⟩]⟩) ∧
    GlobalAlloc.alloc ⟨0, [⟨4160, 960⟩]⟩ ⟨64, 8⟩ =
      some (some 4160, ⟨0, [⟨4224, 896⟩]⟩) ∧
    GlobalAlloc.alloc ⟨0, [⟨4224, 896⟩]⟩ ⟨64, 8⟩ =
      some (some 4224, ⟨0, [⟨4288, 832⟩]⟩) ∧
    GlobalAlloc.alloc ⟨0, [⟨4288, 832⟩]⟩ ⟨64, 8⟩ =
      some (some 4288, ⟨0, [⟨4352, 768⟩]⟩) ∧
    GlobalAlloc.dealloc ⟨0, [⟨4352, 768⟩]⟩ 4096 ⟨64, 8⟩ =
      some ⟨0, [⟨4096, 64⟩, ⟨4352, 768⟩]⟩ ∧
    GlobalAlloc.dealloc ⟨0, [⟨4096, 64⟩, ⟨4352, 768⟩]⟩ 4224 ⟨64, 8⟩ =
      some ⟨0, [⟨4224, 64⟩, ⟨4096, 64⟩, ⟨4352, 768⟩]⟩ ∧
    GlobalAlloc.alloc ⟨0, [⟨4224, 64⟩, ⟨4096, 64⟩, ⟨4352, 768⟩]⟩ ⟨800, 8⟩ =
      some (none, ⟨0, [⟨4224, 64⟩, ⟨4096, 64⟩, ⟨4352, 768⟩]⟩) ∧
    sum_free_sizes [⟨4224, 64⟩, ⟨4096, 64⟩, ⟨4352, 768⟩] = 896 ∧
    (800 : Nat) ≤ 896 := by
  decide

/-- C7: allocating a 100-byte block A at alignment 8, deallocating it, and
allocating 100 bytes at alignment 8 again with no intervening calls returns
the same address: the freed block (adjusted size 104) is prepended to the
list, and the first-fit scan reuses it exactly, restoring the very state the
first allocation produced. -/
theorem claim7_reuse_roundtrip (st st₁ : LinkedListAllocator) (a : Nat)
    (h : GlobalAlloc.alloc st ⟨100, 8⟩ = some (some a, st₁)) :
    GlobalAlloc.dealloc st₁ a ⟨100, 8⟩ =
      some ⟨st₁.headSize, ⟨a, 104⟩ :: st₁.freeList⟩ ∧
    GlobalAlloc.alloc ⟨st₁.headSize, ⟨a, 104⟩ :: st₁.freeList⟩ ⟨100, 8⟩ =
      some (some a, st₁) := by
  obtain ⟨S, A, r, rest, hsa, hfind, hok, hcase⟩ := alloc_success_inv h
  have h104 : size_align ⟨100, 8⟩ = some (104, 8) := by decide
  have hSA : S = 104 ∧ A = 8 := by
    have hsa' := hsa
    rw [h104] at hsa'
    simp only [Option.some.injEq, Prod.mk.injEq] at hsa'
    exact ⟨hsa'.1.symm, hsa'.2.symm⟩
  obtain ⟨rfl, rfl⟩ := hSA
  have hs : a = fast_align_up r.start_addr 8 :=
    (alloc_from_region_possible_ok_iff.mp hok).1
  have h8a : alignOfListNode ∣ a := by
    rw [hs]; exact fast_align_up_dvd _ _
  have hov : a + 104 ≤ USIZE_MAX := by
    have h1 := (alloc_from_region_possible_ok_iff.mp hok).2.1
    rw [← hs] at h1
    exact h1
  have hup : fast_align_up a 8 = a :=
    fast_align_up_of_dvd (by decide) h8a
  constructor
  · rw [dealloc_eq h104]
    exact add_free_region_some h8a (by decide)
  · have hok2 : alloc_from_region_possible ⟨a, 104⟩ 104 8 = .ok a := by
      apply alloc_from_region_possible_ok_iff.mpr
      simp only [ListNode.start_addr, ListNode.end_addr]
      rw [hup]
      exact ⟨rfl, hov, Nat.le_refl _, Or.inl (by omega)⟩
    have hfind2 : find_region (⟨a, 104⟩ :: st₁.freeList) 104 8 =
        some (⟨a, 104⟩, a, st₁.freeList) := by
      simp only [find_region, hok2]
    rw [@alloc_eq_of_find ⟨st₁.headSize, ⟨a, 104⟩ :: st₁.freeList⟩ ⟨100, 8⟩ 104 8
      ⟨a, 104⟩ a st₁.freeList h104 hfind2]
    rw [if_neg (by simp [ListNode.end_addr])]

theorem claim7_witness :
    GlobalAlloc.dealloc ⟨0, [⟨4200, 920⟩]⟩ 4096 ⟨100, 8⟩ =
      some ⟨0, [⟨4096, 104⟩, ⟨4200, 920⟩]⟩ ∧
    GlobalAlloc.alloc ⟨0, [⟨4096, 104⟩, ⟨4200, 920⟩]⟩ ⟨100, 8⟩ =
      some (some 4096, ⟨0, [⟨4200, 920⟩]⟩) :=
  claim7_reuse_roundtrip ⟨0, [⟨4096, 1024⟩]⟩ ⟨0, [⟨4200, 920⟩]⟩ 4096 (by decide)

/-- C9: after `init` and any panic-free sequence of allocate/deallocate
calls, the sentinel is still at the root with size 0, and every node of the
free list has size at least `size_of::<ListNode>` and a start address aligned
to `align_of::<ListNode>`; moreover the address a successful allocate returns
is computed from a node of the chain hanging off the sentinel (the sentinel
itself is never a candidate, hence never returned to a caller). -/
theorem claim9_wellformedness_invariant :
    (∀ start hsize ops st₀ st',
      init new start hsize = some st₀ →
      runOps st₀ ops = some st' →
      st'.headSize = 0 ∧
        ∀ r ∈ st'.freeList,
          sizeOfListNode ≤ r.size ∧ alignOfListNode ∣ r.addr) ∧
    (∀ st layout a st₁,
      GlobalAlloc.alloc st layout = some (some a, st₁) →
      ∃ r S A, r ∈ st.freeList ∧ size_align layout = some (S, A) ∧
        a = fast_align_up r.start_addr A) := by
  constructor
  · intro start hsize ops st₀ st' hinit hrun
    obtain ⟨h8, hsz, hst₀⟩ := add_free_region_inv hinit
    have hw : listWF st₀.freeList := by
      rw [hst₀]
      intro x hx
      rcases List.mem_cons.mp hx with hx | hx
      · subst hx; exact ⟨hsz, h8⟩
      · cases hx
    have hh : st₀.headSize = 0 := by rw [hst₀]; rfl
    obtain ⟨h1, h2⟩ := runOps_wf hrun hw
    exact ⟨h1.trans hh, h2⟩
  · intro st layout a st₁ h
    obtain ⟨S, A, r, rest, hsa, hfind, hok, -⟩ := alloc_success_inv h
    obtain ⟨pre, post, hl, -, -, -⟩ := find_region_some hfind
    refine ⟨r, S, A, ?_, hsa, (alloc_from_region_possible_ok_iff.mp hok).1⟩
    rw [hl]
    exact List.mem_append.mpr (Or.inr (List.mem_cons_self _ _))

theorem claim9_witness :
    (⟨0, [⟨4096, 104⟩, ⟨4200, 920⟩]⟩ : LinkedListAllocator).headSize = 0 :=
  (claim9_wellformedness_invariant.1 4096 1024
    [Op.alloc ⟨100, 8⟩, Op.dealloc 4096 ⟨100, 8⟩]
    ⟨0, [⟨4096, 1024⟩]⟩ ⟨0, [⟨4096, 104⟩, ⟨4200, 920⟩]⟩
    (by decide) (by decide)).1

/-- C10: on a successful allocate only the tail excess
`region.end - (aligned start + adjusted size)` of the chosen region is
re-added to the free list (prepended when positive, nothing otherwise); the
bytes between the region's start and the aligned start belong to no node, so
`sum_free_sizes` drops by the adjusted size *plus* that gap — in particular
when the aligned start strictly exceeds the region's start, free bytes plus
the new allocation's bytes are strictly fewer than the free bytes before. -/
theorem claim10_split_accounting (st st₁ : LinkedListAllocator)
    (layout : Layout) (a : Nat)
    (h : GlobalAlloc.alloc st layout = some (some a, st₁)) :
    ∃ S A r pre post,
      size_align layout = some (S, A) ∧
      st.freeList = pre ++ r :: post ∧
      a = fast_align_up r.start_addr A ∧
      r.start_addr ≤ a ∧ a + S ≤ r.end_addr ∧
      ((r.end_addr - (a + S) = 0 ∧ st₁.freeList = pre ++ post) ∨
        (0 < r.end_addr - (a + S) ∧
          st₁.freeList =
            ⟨a + S, r.end_addr - (a + S)⟩ :: (pre ++ post))) ∧
      sum_free_sizes st₁.freeList + S + (a - r.start_addr) =
        sum_free_sizes st.freeList ∧
      (r.start_addr < a →
        sum_free_sizes st₁.freeList + S < sum_free_sizes st.freeList) := by
  obtain ⟨S, A, r, rest, hsa, hfind, hok, hcase⟩ := alloc_success_inv h
  obtain ⟨pre, post, hl, hl', -, -⟩ := find_region_some hfind
  obtain ⟨hApos, -, -, hS16⟩ := size_align_facts hsa
  obtain ⟨hs, -, hle, -⟩ := alloc_from_region_possible_ok_iff.mp hok
  rw [← hs] at hle
  have hga : r.start_addr ≤ a := hs ▸ fast_align_up_ge hApos
  have hsum : sum_free_sizes st.freeList =
      sum_free_sizes pre + r.size + sum_free_sizes post := by
    rw [hl, sum_free_sizes_append, sum_free_sizes_cons]
    omega
  have hle' : a + S ≤ r.addr + r.size := hle
  have hga' : r.addr ≤ a := hga
  have h16 : (16 : Nat) ≤ S := hS16
  refine ⟨S, A, r, pre, post, hsa, hl, hs, hga, hle, ?_⟩
  rcases hcase with ⟨hz, rfl⟩ | ⟨hpos, -, rfl⟩
  · have hz' : r.addr + r.size - (a + S) = 0 := hz
    have hfl : (⟨st.headSize, rest⟩ : LinkedListAllocator).freeList = pre ++ post := hl'
    refine ⟨Or.inl ⟨hz, hfl⟩, ?_, ?_⟩
    · rw [hfl, sum_free_sizes_append, hsum]
      simp only [ListNode.start_addr]
      omega
    · intro hlt
      simp only [ListNode.start_addr] at hlt
      rw [hfl, sum_free_sizes_append, hsum]
      omega
  · have hposx : 0 < r.end_addr - (a + S) := lt_of_lt_of_le (by decide) hpos
    have hpos' : 0 < r.addr + r.size - (a + S) := hposx
    have hfl : (⟨st.headSize, ⟨a + S, r.end_addr - (a + S)⟩ :: rest⟩ :
        LinkedListAllocator).freeList =
          ⟨a + S, r.end_addr - (a + S)⟩ :: (pre ++ post) := by
      rw [hl']
    have hnode : (⟨a + S, r.end_addr - (a + S)⟩ : ListNode).size =
        r.addr + r.size - (a + S) := rfl
    refine ⟨Or.inr ⟨hposx, hfl⟩, ?_, ?_⟩
    · rw [hfl, sum_free_sizes_cons, sum_free_sizes_append, hnode, hsum]
      simp only [ListNode.start_addr]
      omega
    · intro hlt
      simp only [ListNode.start_addr] at hlt
      rw [hfl, sum_free_sizes_cons, sum_free_sizes_append, hnode, hsum]
      omega

theorem claim10_witness :
    ∃ S A r pre post,
      size_align ⟨100, 64⟩ = some (S, A) ∧
      (⟨0, [⟨4104, 1024⟩]⟩ : LinkedListAllocator).freeList = pre ++ r :: post ∧
      (4160 : Nat) = fast_align_up r.start_addr A ∧
      r.start_addr ≤ 4160 ∧ 4160 + S ≤ r.end_addr ∧
      ((r.end_addr - (4160 + S) = 0 ∧
          (⟨0, [⟨4288, 840⟩]⟩ : LinkedListAllocator).freeList = pre ++ post) ∨
        (0 < r.end_addr - (4160 + S) ∧
          (⟨0, [⟨4288, 840⟩]⟩ : LinkedListAllocator).freeList =
            ⟨4160 + S, r.end_addr - (4160 + S)⟩ :: (pre ++ post))) ∧
      sum_free_sizes (⟨0, [⟨4288, 840⟩]⟩ : LinkedListAllocator).freeList + S +
          (4160 - r.start_addr) =
        sum_free_sizes (⟨0, [⟨4104, 1024⟩]⟩ : LinkedListAllocator).freeList ∧
      (r.start_addr < 4160 →
        sum_free_sizes (⟨0, [⟨4288, 840⟩]⟩ : LinkedListAllocator).freeList + S <
          sum_free_sizes (⟨0, [⟨4104, 1024⟩]⟩ : LinkedListAllocator).freeList) :=
  claim10_split_accounting ⟨0, [⟨4104, 1024⟩]⟩ ⟨0, [⟨4288, 840⟩]⟩ ⟨100, 64⟩ 4160
    (by decide)

end Clacos
